import Mathlib

/-!
Shallow embedding of the encrypted-keystore subsystem of a wallet CLI
(`src/types/wallet.rs`, `src/commands/wallet.rs`, `src/utils/secure_fs.rs`,
`src/utils/secrets.rs`), together with proofs of the specified properties.

External crates are modelled ideally, with their documented contracts:
* `scrypt` (key-derivation) is an ideal KDF: the derived key is represented
  as the pair `(password, salt)`, so distinct passwords (or salts) derive
  distinct keys — collision-freeness of the KDF.
* `aes_gcm` (AES-256-GCM) is an ideal AEAD: a ciphertext records the key,
  nonce and plaintext used to produce it; decryption succeeds exactly when
  key and nonce match — perfect authentication, no forgeries.
* the `base64` storage encoding is modelled by a value `B64 α` that is
  either a well-formed encoding of a value of `α` or a malformed string
  on which decoding fails.
* `OsRng` randomness (salt, nonce) and the `Utc::now` timestamp are passed
  as explicit parameters.
The repository's own code is translated statement by statement.
-/

namespace RskCli

/-! Bytes (Rust `u8`) are embedded as `Nat`; well-formed bytes are `< 256`,
stated as a hypothesis wherever a property depends on it. -/

/-! ### Association-list maps

Rust's `HashMap<String, Wallet>` (and the modelled filesystem maps) are
embedded as association lists.  `insertA` replaces any existing binding,
matching `HashMap::insert`; iteration order is a modelling choice since
`HashMap` iteration order is unspecified. -/

def containsA {κ β : Type} [DecidableEq κ] : List (κ × β) → κ → Bool
  | [], _ => false
  | kv :: rest, k => kv.1 = k || containsA rest k

def lookupA {κ β : Type} [DecidableEq κ] : List (κ × β) → κ → Option β
  | [], _ => none
  | kv :: rest, k => if kv.1 = k then some kv.2 else lookupA rest k

def eraseA {κ β : Type} [DecidableEq κ] (m : List (κ × β)) (k : κ) : List (κ × β) :=
  m.filter (fun kv => kv.1 ≠ k)

def insertA {κ β : Type} [DecidableEq κ] (m : List (κ × β)) (k : κ) (v : β) :
    List (κ × β) :=
  (k, v) :: eraseA m k

/-! ### Hexadecimal rendering

Models `hex::encode` (lowercase hex of a byte slice) and the `{:x}`
formatting of a 160-bit address, plus a decoder used to state that the
hex rendering loses no information. -/

def hexDigitChar (n : Nat) : Char :=
  if n < 10 then Char.ofNat (48 + n) else Char.ofNat (87 + n)

def hexEncodeBytes : List Nat → List Char
  | [] => []
  | b :: rest => hexDigitChar (b / 16) :: hexDigitChar (b % 16) :: hexEncodeBytes rest

def hexCharVal (c : Char) : Option Nat :=
  if 48 ≤ c.toNat ∧ c.toNat ≤ 57 then some (c.toNat - 48)
  else if 97 ≤ c.toNat ∧ c.toNat ≤ 102 then some (c.toNat - 87)
  else none

def hexDecodeChars : List Char → Option (List Nat)
  | [] => some []
  | c1 :: c2 :: rest =>
    match hexCharVal c1, hexCharVal c2, hexDecodeChars rest with
    | some h, some l, some r => some ((16 * h + l) :: r)
    | _, _, _ => none
  | [_] => none

/-- Fixed-width lowercase hex digits of `n` (most significant first), as
produced by zero-padded `{:x}` formatting of a fixed-width integer. -/
def natHexDigits (n : Nat) : Nat → List Char
  | 0 => []
  | w + 1 => natHexDigits (n / 16) w ++ [hexDigitChar (n % 16)]

/-- Rendering of an `alloy` 160-bit `Address` as `format!("0x{:x}", a)`:
the `0x` prefix followed by 40 lowercase hex digits. -/
def formatAddress (a : Nat) : String :=
  "0x" ++ String.mk (natHexDigits a 40)

/-! ### Ideal models of the cryptographic primitives -/

/-- Ideal model of the key the `scrypt` KDF derives from a password and a
salt: the derivation is collision-free, so the key is represented by the
pair itself.  The fixed `Params::recommended()` cost parameters do not
appear: they never vary in the embedded code. -/
structure DerivedKey where
  password : String
  salt : List Nat
deriving DecidableEq, Repr

/-- Model of `scrypt(password.as_bytes(), &salt, &params, &mut key)` writing
a 32-byte key; with valid recommended parameters it never fails. -/
def scryptDerive (password : String) (salt : List Nat) : DerivedKey :=
  ⟨password, salt⟩

/-- Ideal model of an AES-256-GCM ciphertext (ciphertext plus 128-bit tag):
it records the key, nonce and plaintext that produced it.  Authenticated
decryption recovers the plaintext exactly when key and nonce match. -/
structure AeadCiphertext where
  key : DerivedKey
  nonce : List Nat
  plaintext : List Nat
deriving DecidableEq, Repr

/-- Model of `cipher.encrypt(Nonce::from_slice(&nonce), private_key)`. -/
def aeadEncrypt (k : DerivedKey) (n : List Nat) (p : List Nat) : AeadCiphertext :=
  ⟨k, n, p⟩

/-- Model of `cipher.decrypt(Nonce::from_slice(&nonce_or_iv), encrypted_key)`:
tag verification fails (returns `none`) unless the key and nonce are the
ones the ciphertext was produced with. -/
def aeadDecrypt (k : DerivedKey) (n : List Nat) (c : AeadCiphertext) :
    Option (List Nat) :=
  if c.key = k ∧ c.nonce = n then some c.plaintext else none

/-- Ideal model of a base64-encoded stored field (`STANDARD.encode` /
`STANDARD.decode` of the `base64` crate): either the well-formed encoding
of a value, or a stored string on which decoding fails. -/
inductive B64 (α : Type) where
  | enc : α → B64 α
  | malformed : String → B64 α
deriving DecidableEq, Repr

/-- Model of `STANDARD.decode` on a stored field. -/
def B64.decode {α : Type} : B64 α → Option α
  | .enc a => some a
  | .malformed _ => none

/-! ### Keystore entry (`src/types/wallet.rs`, `struct Wallet`) -/

/-- Errors raised by `Wallet::decrypt_private_key`, one constructor per
`anyhow!` site, in source order. -/
inductive WalletError where
  | decodeSalt
  | decodeNonce
  | decodeEncryptedKey
  | saltLength (got : Nat)
  | incorrectPassword
  | plaintextLength (got : Nat)
  | unsupportedFormat
deriving DecidableEq, Repr

/-- The `Wallet` struct.  `address` is the 160-bit account identifier
(`alloy::primitives::Address`) as a natural number; `balance` is the
`U256` balance; the three stored crypto fields are base64-encoded. -/
structure Wallet where
  address : Nat
  balance : Nat
  network : String
  name : String
  encrypted_private_key : B64 AeadCiphertext
  salt : B64 (List Nat)
  iv : B64 (List Nat)
  created_at : String
deriving DecidableEq, Repr

/-- Model of `alloy::signers::local::PrivateKeySigner`: `keyBytes` is
`to_bytes()` (the 32 raw key bytes) and `address` the derived account
address (the derivation itself is external and left opaque). -/
structure PrivateKeySigner where
  keyBytes : List Nat
  address : Nat
deriving DecidableEq, Repr

namespace Wallet

/-- Embedding of `Wallet::encrypt_private_key`.  The fresh random `salt`
(16 bytes) and `nonce` (12 bytes) drawn from `OsRng` are explicit
parameters.  Returns `(ciphertext, nonce, salt)` as the source does; with
the fixed recommended scrypt parameters and an in-range plaintext the
source's two fallible steps cannot fail, so the embedding is total. -/
def encrypt_private_key (private_key : List Nat) (password : String)
    (salt nonce : List Nat) : AeadCiphertext × List Nat × List Nat :=
  let key := scryptDerive password salt
  let ciphertext := aeadEncrypt key nonce private_key
  (ciphertext, nonce, salt)

/-- Embedding of `Wallet::new`: encrypts the signer's key bytes and builds
the entry with base64-encoded stored fields, zero balance, empty network
and the current timestamp (a parameter here). -/
def new (wallet : PrivateKeySigner) (name : String) (password : String)
    (salt nonce : List Nat) (created_at : String) : Wallet :=
  let res := encrypt_private_key wallet.keyBytes password salt nonce
  { address := wallet.address
    balance := 0
    network := ""
    name := name
    encrypted_private_key := B64.enc res.1
    salt := B64.enc res.2.2
    iv := B64.enc res.2.1
    created_at := created_at }

/-- Embedding of `Wallet::decrypt_private_key`, statement by statement:
decode the three stored fields (each failure its own error), reject a salt
that is not 16 bytes, derive the key, take the GCM path only for a
12-byte nonce (any other length is an unsupported format), surface a tag
failure as an incorrect password, reject a plaintext that is not 32 bytes,
and return the `0x`-prefixed lowercase hex of the plaintext. -/
def decrypt_private_key (w : Wallet) (password : String) :
    Except WalletError String :=
  match w.salt.decode with
  | none => .error .decodeSalt
  | some salt =>
    match w.iv.decode with
    | none => .error .decodeNonce
    | some nonce_or_iv =>
      match w.encrypted_private_key.decode with
      | none => .error .decodeEncryptedKey
      | some encrypted_key =>
        if salt.length ≠ 16 then .error (.saltLength salt.length)
        else
          let key := scryptDerive password salt
          if nonce_or_iv.length = 12 then
            match aeadDecrypt key nonce_or_iv encrypted_key with
            | none => .error .incorrectPassword
            | some plaintext =>
              if plaintext.length ≠ 32 then
                .error (.plaintextLength plaintext.length)
              else
                .ok ("0x" ++ String.mk (hexEncodeBytes plaintext))
          else
            .error .unsupportedFormat

end Wallet

/-! ### Wallet registry (`src/types/wallet.rs`, `struct WalletData`) -/

/-- The contact-book entry (`src/types/contacts.rs`); it rides along in the
registry file but is outside the crypto contract, so only the fields the
embedded operations touch are kept. -/
structure Contact where
  name : String
  address : String
  notes : Option String
  tags : List String
deriving DecidableEq, Repr

/-- Errors raised by the registry operations and the wallet commands, one
constructor per `anyhow!` site among the embedded functions. -/
inductive RegistryError where
  | duplicateAddress (address : String)
  | notFound (address : String)
  | walletNotFoundByName (name : String)
  | invalidName
  | duplicateName (name : String)
  | renameFailed (name : String)
  | cannotDeleteActive
deriving DecidableEq, Repr

/-- The `WalletData` aggregate: the active address (empty sentinel when
none), the address-keyed entries, contacts and the optional stored API
key.  The `HashMap<String, Wallet>` is an association list here. -/
structure WalletData where
  current_wallet : String
  wallets : List (String × Wallet)
  contacts : List Contact
  api_key : Option String
deriving DecidableEq, Repr

namespace WalletData

/-- Embedding of `WalletData::new`. -/
def new : WalletData :=
  { current_wallet := "", wallets := [], contacts := [], api_key := none }

/-- Embedding of `WalletData::get_wallet_by_name`:
`self.wallets.values().find(|w| w.name == name)`. -/
def get_wallet_by_name (wd : WalletData) (name : String) : Option Wallet :=
  (wd.wallets.map (fun kv => kv.2)).find? (fun w => w.name = name)

/-- Embedding of `WalletData::get_current_wallet`. -/
def get_current_wallet (wd : WalletData) : Option Wallet :=
  lookupA wd.wallets wd.current_wallet

/-! Mutating registry operations are embedded as a pair of the `Result`
and the post-state of `&mut self`; on every error path the source returns
before mutating, so the state component is the input state there. -/

/-- Embedding of `WalletData::add_wallet`: reject an address already
present, otherwise insert the entry under its formatted address and make
it current. -/
def add_wallet (wd : WalletData) (w : Wallet) :
    Except RegistryError Unit × WalletData :=
  let address := formatAddress w.address
  if containsA wd.wallets address then
    (.error (.duplicateAddress address), wd)
  else
    (.ok (), { wd with wallets := insertA wd.wallets address w,
                       current_wallet := address })

/-- Embedding of `WalletData::switch_wallet`. -/
def switch_wallet (wd : WalletData) (address : String) :
    Except RegistryError Unit × WalletData :=
  if ¬ containsA wd.wallets address then
    (.error (.notFound address), wd)
  else
    (.ok (), { wd with current_wallet := address })

/-- Embedding of `WalletData::remove_wallet`: reject an absent address;
clear `current_wallet` when it is the removed address; remove the entry. -/
def remove_wallet (wd : WalletData) (address : String) :
    Except RegistryError Unit × WalletData :=
  if ¬ containsA wd.wallets address then
    (.error (.notFound address), wd)
  else
    let current' := if wd.current_wallet = address then "" else wd.current_wallet
    (.ok (), { wd with current_wallet := current',
                       wallets := eraseA wd.wallets address })

/-- Embedding of `WalletData::rename_wallet`: reject an absent address,
then set the name of the entry stored under that address (the source's
`get_mut` cannot fail after the containment check, so its dead `else`
branch is dropped). -/
def rename_wallet (wd : WalletData) (w : Wallet) (new_name : String) :
    Except RegistryError Unit × WalletData :=
  let address := formatAddress w.address
  if ¬ containsA wd.wallets address then
    (.error (.notFound address), wd)
  else
    (.ok (), { wd with wallets := wd.wallets.map (fun kv =>
        if kv.1 = address then (kv.1, { kv.2 with name := new_name }) else kv) })

end WalletData

/-! ### Wallet commands (`src/commands/wallet.rs`)

The commands load the registry from the keystore file, run the in-memory
logic below, and persist the resulting state with `write_secure` only on
success; an error therefore leaves the persisted registry unchanged, which
the state component of the pair records. -/

namespace WalletCommand

/-- Embedding of the registry logic of `WalletCommand::rename_wallet`:
look the wallet up by name, reject an empty new name, reject a new name
already used by any wallet, then update the entry stored under the found
wallet's address. -/
def rename_wallet_step (wd : WalletData) (old_name new_name : String) :
    Except RegistryError Unit × WalletData :=
  match wd.get_wallet_by_name old_name with
  | none => (.error (.walletNotFoundByName old_name), wd)
  | some w =>
    if new_name = "" then (.error .invalidName, wd)
    else if (wd.get_wallet_by_name new_name).isSome then
      (.error (.duplicateName new_name), wd)
    else
      let address := formatAddress w.address
      if containsA wd.wallets address then
        (.ok (), { wd with wallets := wd.wallets.map (fun kv =>
            if kv.1 = address then (kv.1, { kv.2 with name := new_name }) else kv) })
      else
        (.error (.renameFailed old_name), wd)

/-- Embedding of the registry logic of `WalletCommand::delete_wallet`:
look the wallet up by name, refuse to delete the currently selected
wallet, otherwise remove it (the source discards `remove_wallet`'s
result). -/
def delete_wallet_step (wd : WalletData) (name : String) :
    Except RegistryError Unit × WalletData :=
  match wd.get_wallet_by_name name with
  | none => (.error (.walletNotFoundByName name), wd)
  | some w =>
    let address := formatAddress w.address
    if wd.current_wallet = address then
      (.error .cannotDeleteActive, wd)
    else
      (.ok (), (wd.remove_wallet address).2)

end WalletCommand

/-! ### Registry operation sequences, for the selection invariant -/

/-- One registry mutation, as invoked through the `WalletData` API. -/
inductive RegistryOp where
  | add (w : Wallet)
  | switch (address : String)
  | remove (address : String)
  | rename (w : Wallet) (new_name : String)
deriving Repr

/-- Post-state of one operation, whether it succeeded or failed. -/
def applyOp (wd : WalletData) : RegistryOp → WalletData
  | .add w => (wd.add_wallet w).2
  | .switch address => (wd.switch_wallet address).2
  | .remove address => (wd.remove_wallet address).2
  | .rename w new_name => (wd.rename_wallet w new_name).2

/-- Post-state of a sequence of operations. -/
def applyOps (wd : WalletData) (ops : List RegistryOp) : WalletData :=
  ops.foldl applyOp wd

/-- The registry selection invariant: `current_wallet` is the empty
sentinel or a key present in `wallets`. -/
def SelectionInvariant (wd : WalletData) : Prop :=
  wd.current_wallet = "" ∨ containsA wd.wallets wd.current_wallet = true

/-! ### Secret wrappers (`src/utils/secrets.rs`)

Only the formatting behaviour is embedded: the zeroize-on-drop lifetime
contract concerns memory reclamation, which a shallow embedding of values
cannot observe.  `std::any::type_name::<T>()` is a compile-time constant
of the payload type, passed here as the `typeName` parameter. -/

/-- The `Secret<T>` wrapper (not serializable). -/
structure Secret (α : Type) where
  value : α
deriving DecidableEq, Repr

namespace Secret

/-- Embedding of `Secret::new`. -/
def new {α : Type} (value : α) : Secret α :=
  ⟨value⟩

/-- Embedding of the `Debug` impl for `Secret<T>`:
`write!(f, "Secret<{}>", std::any::type_name::<T>())`. -/
def debugFmt {α : Type} (typeName : String) (_s : Secret α) : String :=
  "Secret<" ++ typeName ++ ">"

/-- Embedding of the `Display` impl for `Secret<T>`, identical text. -/
def displayFmt {α : Type} (typeName : String) (_s : Secret α) : String :=
  "Secret<" ++ typeName ++ ">"

end Secret

/-- The `SerializableSecret<T>` wrapper (serializable variant). -/
structure SerializableSecret (α : Type) where
  value : α
deriving DecidableEq, Repr

namespace SerializableSecret

/-- Embedding of `SerializableSecret::new`. -/
def new {α : Type} (value : α) : SerializableSecret α :=
  ⟨value⟩

/-- Embedding of the `Debug` impl for `SerializableSecret<T>`. -/
def debugFmt {α : Type} (typeName : String) (_s : SerializableSecret α) : String :=
  "SerializableSecret<" ++ typeName ++ ">"

/-- Embedding of the `Display` impl for `SerializableSecret<T>`. -/
def displayFmt {α : Type} (typeName : String) (_s : SerializableSecret α) : String :=
  "SerializableSecret<" ++ typeName ++ ">"

end SerializableSecret

/-! ### Secure persistence (`src/utils/secure_fs.rs`)

The filesystem is a pair of path-keyed maps: directory paths to their
permission mode and file paths to contents and mode.  A path is its list
of components.  Modes newly created entries receive before any explicit
`set_permissions` call depend on the process umask, so the default
directory and file modes are parameters. -/

/-- Paths are component lists; `parent` is `dropLast`. -/
abbrev FsPath := List String

/-- Modelled filesystem state. -/
structure FileSystem where
  dirs : List (FsPath × Nat)
  files : List (FsPath × (String × Nat))
deriving DecidableEq, Repr

/-- The filesystem with no directories and no files. -/
def FileSystem.empty : FileSystem :=
  { dirs := [], files := [] }

/-- Nonempty initial segments of a path, shortest first: the chain of
directories `create_dir_all` walks. -/
def initialSegs (p : FsPath) : List FsPath :=
  (List.range p.length).map (fun i => p.take (i + 1))

/-- Model of `std::fs::create_dir_all`: create every missing ancestor of
the path (and the path itself) with the process default directory mode,
leaving already-existing directories and their modes untouched. -/
def create_dir_all (fs : FileSystem) (defaultDirMode : Nat) (p : FsPath) :
    FileSystem :=
  { fs with dirs := ((initialSegs p).foldl
      (fun ds q => if containsA ds q then ds else insertA ds q defaultDirMode)
      fs.dirs) }

/-- Model of `std::fs::write`: replace the contents of an existing file
keeping its mode, or create the file with the process default file mode. -/
def fsWrite (fs : FileSystem) (defaultFileMode : Nat) (p : FsPath)
    (contents : String) : FileSystem :=
  match lookupA fs.files p with
  | some cm => { fs with files := insertA fs.files p (contents, cm.2) }
  | none => { fs with files := insertA fs.files p (contents, defaultFileMode) }

/-- Model of `fs::set_permissions` on a file path. -/
def setFileMode (fs : FileSystem) (p : FsPath) (mode : Nat) : FileSystem :=
  match lookupA fs.files p with
  | some cm => { fs with files := insertA fs.files p (cm.1, mode) }
  | none => fs

/-- Model of `fs::set_permissions` on a directory path. -/
def setDirMode (fs : FileSystem) (p : FsPath) (mode : Nat) : FileSystem :=
  match lookupA fs.dirs p with
  | some _ => { fs with dirs := insertA fs.dirs p mode }
  | none => fs

/-- Embedding of `write_secure` (Unix build): `create_dir_all` on the
parent, `fs::write`, then `set_permissions` to mode `0o600` = 384. -/
def write_secure (fs : FileSystem) (defaultDirMode defaultFileMode : Nat)
    (p : FsPath) (contents : String) : FileSystem :=
  let fs1 := create_dir_all fs defaultDirMode p.dropLast
  let fs2 := fsWrite fs1 defaultFileMode p contents
  setFileMode fs2 p 384

/-- Embedding of `create_dir_secure` (Unix build): `create_dir_all`, then
`set_permissions` to mode `0o700` = 448 on the path itself only. -/
def create_dir_secure (fs : FileSystem) (defaultDirMode : Nat) (p : FsPath) :
    FileSystem :=
  let fs1 := create_dir_all fs defaultDirMode p
  setDirMode fs1 p 448


/-! ### Concrete instances used by witnesses and counterexamples -/

/-- A concrete 32-byte raw key. -/
def exampleKey : List Nat :=
  List.replicate 32 7

/-- A concrete signer over `exampleKey` with address `5`. -/
def exampleSigner : PrivateKeySigner :=
  ⟨exampleKey, 5⟩

/-- A concrete keystore entry named `main`, encrypted under password `pw`
with a fixed 16-byte salt and 12-byte nonce. -/
def exampleWallet : Wallet :=
  Wallet.new exampleSigner "main" "pw" (List.replicate 16 1) (List.replicate 12 2) "t"

/-- The registry holding exactly `exampleWallet`, which is also the
current selection (the state `add_wallet` leaves behind). -/
def exampleRegistry : WalletData :=
  (WalletData.new.add_wallet exampleWallet).2

/-- A keystore entry whose stored fields are all malformed base64. -/
def malformedWallet : Wallet :=
  { address := 0
    balance := 0
    network := ""
    name := "broken"
    encrypted_private_key := B64.malformed "%%%"
    salt := B64.malformed "!!"
    iv := B64.malformed "??"
    created_at := "t" }

/-! ### Library lemmas about the map and hex helpers -/

theorem lookupA_insertA_self {κ β : Type} [DecidableEq κ]
    (m : List (κ × β)) (k : κ) (v : β) : lookupA (insertA m k v) k = some v := by
  simp [lookupA, insertA]

theorem lookupA_eraseA_ne {κ β : Type} [DecidableEq κ]
    (m : List (κ × β)) (k k' : κ) (h : k' ≠ k) :
    lookupA (eraseA m k) k' = lookupA m k' := by
  induction m with
  | nil => rfl
  | cons kv rest ih =>
    by_cases hk : kv.1 = k
    · have h1 : eraseA (kv :: rest) k = eraseA rest k := by
        simp [eraseA, List.filter_cons, hk]
      have hne : kv.1 ≠ k' := fun hc => h (hc ▸ hk)
      have h2 : lookupA (kv :: rest) k' = lookupA rest k' := by
        simp only [lookupA]
        rw [if_neg hne]
      rw [h1, h2]
      exact ih
    · have h1 : eraseA (kv :: rest) k = kv :: eraseA rest k := by
        simp [eraseA, List.filter_cons, hk]
      rw [h1]
      simp only [lookupA]
      by_cases hk' : kv.1 = k'
      · rw [if_pos hk', if_pos hk']
      · rw [if_neg hk', if_neg hk']
        exact ih

theorem lookupA_insertA_ne {κ β : Type} [DecidableEq κ]
    (m : List (κ × β)) (k k' : κ) (v : β) (h : k' ≠ k) :
    lookupA (insertA m k v) k' = lookupA m k' := by
  have hne : k ≠ k' := fun hc => h hc.symm
  simp only [insertA, lookupA, hne, if_false]
  exact lookupA_eraseA_ne m k k' h

theorem containsA_iff_lookupA {κ β : Type} [DecidableEq κ]
    (m : List (κ × β)) (k : κ) : containsA m k = true ↔ (lookupA m k).isSome := by
  induction m with
  | nil => simp [containsA, lookupA]
  | cons kv rest ih =>
    by_cases hk : kv.1 = k
    · simp [containsA, lookupA, hk]
    · simp [containsA, lookupA, hk] at *
      exact ih

theorem containsA_insertA_self {κ β : Type} [DecidableEq κ]
    (m : List (κ × β)) (k : κ) (v : β) : containsA (insertA m k v) k = true := by
  rw [containsA_iff_lookupA, lookupA_insertA_self]
  rfl

theorem containsA_eraseA_ne {κ β : Type} [DecidableEq κ]
    (m : List (κ × β)) (k k' : κ) (h : k' ≠ k) :
    containsA (eraseA m k) k' = containsA m k' := by
  have h1 := containsA_iff_lookupA (eraseA m k) k'
  have h2 := containsA_iff_lookupA m k'
  rw [lookupA_eraseA_ne m k k' h] at h1
  by_cases hc : containsA m k' = true
  · rw [hc, h1.mpr (h2.mp hc)]
  · have : ¬ containsA (eraseA m k) k' = true := fun hx => hc (h2.mpr (h1.mp hx))
    simp only [Bool.not_eq_true] at hc this
    rw [hc, this]

theorem hexCharVal_hexDigitChar : ∀ d, d < 16 → hexCharVal (hexDigitChar d) = some d := by
  decide

theorem hexDecode_hexEncode (bs : List Nat) (h : ∀ b ∈ bs, b < 256) :
    hexDecodeChars (hexEncodeBytes bs) = some bs := by
  induction bs with
  | nil => rfl
  | cons b rest ih =>
    have hb : b < 256 := h b (List.mem_cons_self b rest)
    have hdiv : b / 16 < 16 := by omega
    have hmod : b % 16 < 16 := by omega
    have hrest : hexDecodeChars (hexEncodeBytes rest) = some rest :=
      ih (fun b' hb' => h b' (List.mem_cons_of_mem b hb'))
    simp only [hexEncodeBytes, hexDecodeChars, hexCharVal_hexDigitChar _ hdiv,
      hexCharVal_hexDigitChar _ hmod, hrest]
    simp [Nat.div_add_mod]


theorem lookupA_eraseA_self {κ β : Type} [DecidableEq κ]
    (m : List (κ × β)) (k : κ) : lookupA (eraseA m k) k = none := by
  induction m with
  | nil => rfl
  | cons kv rest ih =>
    by_cases hk : kv.1 = k
    · have h1 : eraseA (kv :: rest) k = eraseA rest k := by
        simp [eraseA, List.filter_cons, hk]
      rw [h1]
      exact ih
    · have h1 : eraseA (kv :: rest) k = kv :: eraseA rest k := by
        simp [eraseA, List.filter_cons, hk]
      rw [h1]
      simp only [lookupA]
      rw [if_neg hk]
      exact ih

theorem containsA_insertA_mono {κ β : Type} [DecidableEq κ]
    (m : List (κ × β)) (k k' : κ) (v : β) (h : containsA m k' = true) :
    containsA (insertA m k v) k' = true := by
  by_cases hk : k' = k
  · rw [hk]
    exact containsA_insertA_self m k v
  · simp only [insertA, containsA]
    rw [containsA_eraseA_ne m k k' hk, h]
    simp

theorem lookupA_map_update {κ β : Type} [DecidableEq κ]
    (m : List (κ × β)) (a : κ) (g : β → β) (k : κ) :
    lookupA (m.map (fun kv => if kv.1 = a then (kv.1, g kv.2) else kv)) k =
      if k = a then (lookupA m k).map g else lookupA m k := by
  induction m with
  | nil => by_cases hk : k = a <;> simp [lookupA, hk]
  | cons kv rest ih =>
    by_cases hkv : kv.1 = a
    · by_cases hk : k = a
      · have hke : kv.1 = k := by rw [hkv, hk]
        simp [lookupA, hkv, hk, hke, ih]
      · have hak : ¬ a = k := fun hc => hk hc.symm
        simp [lookupA, hkv, hk, hak, ih]
    · by_cases hkvk : kv.1 = k
      · have hk : ¬ k = a := by
          rw [← hkvk]
          exact fun hc => hkv hc
        simp [lookupA, hkv, hkvk, hk]
      · simp [lookupA, hkv, hkvk, ih]

theorem containsA_map_update {κ β : Type} [DecidableEq κ]
    (m : List (κ × β)) (a : κ) (g : β → β) (k : κ) :
    containsA (m.map (fun kv => if kv.1 = a then (kv.1, g kv.2) else kv)) k =
      containsA m k := by
  have h1 := containsA_iff_lookupA
    (m.map (fun kv => if kv.1 = a then (kv.1, g kv.2) else kv)) k
  have h2 := containsA_iff_lookupA m k
  rw [lookupA_map_update m a g k] at h1
  have hiff : (if k = a then (lookupA m k).map g else lookupA m k).isSome
      = (lookupA m k).isSome := by
    by_cases hk : k = a <;> simp [hk]
  rw [hiff] at h1
  exact Bool.eq_iff_iff.mpr ⟨fun hx => h2.mpr (h1.mp hx), fun hx => h1.mpr (h2.mp hx)⟩

/-! ### Claims -/

/-- C1: Encryption/decryption round-trip.  For every 32-byte raw private
key K and every password P, `encrypt_private_key(K, P)` succeeds (the
embedding is total), and `decrypt_private_key` with the same password P on
the keystore entry built from the returned (ciphertext, nonce, salt)
recovers exactly K: the result is the `0x`-prefixed lowercase hex of K,
and hex decoding that rendering gives back exactly K. -/
theorem c1_encrypt_decrypt_roundtrip
    (K : List Nat) (P : String) (salt nonce : List Nat)
    (signerAddr : Nat) (name created_at : String)
    (hK : K.length = 32) (hKb : ∀ b ∈ K, b < 256)
    (hsalt : salt.length = 16) (hnonce : nonce.length = 12) :
    (Wallet.new ⟨K, signerAddr⟩ name P salt nonce created_at).decrypt_private_key P
      = Except.ok ("0x" ++ String.mk (hexEncodeBytes K)) ∧
    hexDecodeChars (hexEncodeBytes K) = some K := by
  constructor
  · simp [Wallet.new, Wallet.encrypt_private_key, Wallet.decrypt_private_key,
      B64.decode, aeadDecrypt, aeadEncrypt, scryptDerive, hsalt, hnonce, hK]
  · exact hexDecode_hexEncode K hKb

/-- Witness for C1 at a concrete key, password, salt and nonce. -/
theorem c1_encrypt_decrypt_roundtrip_witness :
    (Wallet.new ⟨List.replicate 32 7, 5⟩ "main" "pw" (List.replicate 16 1)
        (List.replicate 12 2) "t").decrypt_private_key "pw"
      = Except.ok ("0x" ++ String.mk (hexEncodeBytes (List.replicate 32 7))) ∧
    hexDecodeChars (hexEncodeBytes (List.replicate 32 7))
      = some (List.replicate 32 7) :=
  c1_encrypt_decrypt_roundtrip (List.replicate 32 7) "pw" (List.replicate 16 1)
    (List.replicate 12 2) 5 "main" "t" (by decide) (by decide) (by decide) (by decide)

/-- C2: Wrong password always fails.  For every raw key K and passwords
P ≠ Pbad, decrypting with Pbad the entry produced by encrypting K under P
fails with the authentication-failure error (surfaced as an incorrect
password) and never returns a value. -/
theorem c2_wrong_password_fails
    (K : List Nat) (P Pbad : String) (salt nonce : List Nat)
    (signerAddr : Nat) (name created_at : String)
    (hne : P ≠ Pbad) (hsalt : salt.length = 16) (hnonce : nonce.length = 12) :
    (Wallet.new ⟨K, signerAddr⟩ name P salt nonce created_at).decrypt_private_key Pbad
      = Except.error WalletError.incorrectPassword := by
  simp [Wallet.new, Wallet.encrypt_private_key, Wallet.decrypt_private_key,
    B64.decode, aeadDecrypt, aeadEncrypt, scryptDerive, hsalt, hnonce,
    DerivedKey.mk.injEq, hne]

/-- Witness for C2 at a concrete key and the password pair pw and wrong. -/
theorem c2_wrong_password_fails_witness :
    (Wallet.new ⟨List.replicate 32 7, 5⟩ "main" "pw" (List.replicate 16 1)
        (List.replicate 12 2) "t").decrypt_private_key "wrong"
      = Except.error WalletError.incorrectPassword :=
  c2_wrong_password_fails (List.replicate 32 7) "pw" "wrong" (List.replicate 16 1)
    (List.replicate 12 2) 5 "main" "t" (by decide) (by decide) (by decide)

/-- C10: Formatting never leaks a secret.  For every two payload values of
the same type, the Debug- and Display-formatted output of `Secret::new`
coincide, and likewise for `SerializableSecret::new`: the output depends
only on the type name, never on the secret value. -/
theorem c10_secret_formatting_value_independent {α : Type}
    (typeName : String) (v1 v2 : α) :
    Secret.debugFmt typeName (Secret.new v1)
      = Secret.debugFmt typeName (Secret.new v2) ∧
    Secret.displayFmt typeName (Secret.new v1)
      = Secret.displayFmt typeName (Secret.new v2) ∧
    SerializableSecret.debugFmt typeName (SerializableSecret.new v1)
      = SerializableSecret.debugFmt typeName (SerializableSecret.new v2) ∧
    SerializableSecret.displayFmt typeName (SerializableSecret.new v1)
      = SerializableSecret.displayFmt typeName (SerializableSecret.new v2) :=
  ⟨rfl, rfl, rfl, rfl⟩


/-- A successful decryption certifies that every stored field was
well-formed: the three base64 fields decode, the salt is 16 bytes, the
nonce is 12 bytes, and the authenticated plaintext is 32 bytes. -/
theorem decrypt_ok_wellformed (w : Wallet) (P s : String)
    (h : w.decrypt_private_key P = Except.ok s) :
    ∃ sb nb c, w.salt.decode = some sb ∧ sb.length = 16 ∧
      w.iv.decode = some nb ∧ nb.length = 12 ∧
      w.encrypted_private_key.decode = some c ∧ c.plaintext.length = 32 := by
  unfold Wallet.decrypt_private_key at h
  cases hs : w.salt.decode with
  | none => rw [hs] at h; cases h
  | some sb =>
    rw [hs] at h
    cases hn : w.iv.decode with
    | none => rw [hn] at h; cases h
    | some nb =>
      rw [hn] at h
      cases he : w.encrypted_private_key.decode with
      | none => rw [he] at h; cases h
      | some c =>
        rw [he] at h
        dsimp only at h
        by_cases hsl : sb.length ≠ 16
        · rw [if_pos hsl] at h; cases h
        · rw [if_neg hsl] at h
          push_neg at hsl
          by_cases hnl : nb.length = 12
          · rw [if_pos hnl] at h
            cases had : aeadDecrypt (scryptDerive P sb) nb c with
            | none => rw [had] at h; cases h
            | some pt =>
              rw [had] at h
              dsimp only at h
              by_cases hpl : pt.length ≠ 32
              · rw [if_pos hpl] at h; cases h
              · push_neg at hpl
                have hptc : pt = c.plaintext := by
                  unfold aeadDecrypt at had
                  by_cases hcond : c.key = scryptDerive P sb ∧ c.nonce = nb
                  · rw [if_pos hcond] at had
                    exact (Option.some.injEq _ _ ▸ had).symm
                  · rw [if_neg hcond] at had; cases had
                exact ⟨sb, nb, c, rfl, hsl, rfl, hnl, rfl, hptc ▸ hpl⟩
          · rw [if_neg hnl] at h; cases h

/-- C4: Decryption rejects every malformed entry.  `decrypt_private_key`
returns an error and never a plaintext whenever any stored field fails
base64 decoding, or the decoded salt is not 16 bytes, or the decoded
nonce is not 12 bytes (the unrecognized format fails explicitly, with no
fallback cipher path), or the authenticated plaintext is not 32 bytes. -/
theorem c4_decrypt_rejects_malformed (w : Wallet) (P : String)
    (h : w.salt.decode = none ∨ w.iv.decode = none ∨
         w.encrypted_private_key.decode = none ∨
         (∃ sb, w.salt.decode = some sb ∧ sb.length ≠ 16) ∨
         (∃ nb, w.iv.decode = some nb ∧ nb.length ≠ 12) ∨
         (∃ c, w.encrypted_private_key.decode = some c ∧ c.plaintext.length ≠ 32)) :
    ∃ e, w.decrypt_private_key P = Except.error e := by
  cases hd : w.decrypt_private_key P with
  | error e => exact ⟨e, rfl⟩
  | ok s =>
    obtain ⟨sb, nb, c, h1, h2, h3, h4, h5, h6⟩ := decrypt_ok_wellformed w P s hd
    rcases h with h | h | h | ⟨sb', hx, hl⟩ | ⟨nb', hx, hl⟩ | ⟨c', hx, hl⟩
    · rw [h1] at h; cases h
    · rw [h3] at h; cases h
    · rw [h5] at h; cases h
    · rw [h1] at hx
      cases hx
      exact absurd h2 hl
    · rw [h3] at hx
      cases hx
      exact absurd h4 hl
    · rw [h5] at hx
      cases hx
      exact absurd h6 hl

/-- Witness for C4 at a concrete wallet whose stored fields are all
malformed base64. -/
theorem c4_decrypt_rejects_malformed_witness :
    ∃ e, malformedWallet.decrypt_private_key "pw" = Except.error e :=
  c4_decrypt_rejects_malformed malformedWallet "pw" (Or.inl rfl)


/-- C5: Add uniqueness and effect.  For every registry and wallet entry:
if the entry's address is already a key in the entries map, `add_wallet`
fails with the duplicate-address error and the registry (entries and
current selection) is unchanged; if it is not, `add_wallet` inserts the
entry under its address, sets `current_wallet` to that address, and leaves
every other entry and the rest of the registry untouched. -/
theorem c5_add_wallet_contract (wd : WalletData) (w : Wallet) :
    (containsA wd.wallets (formatAddress w.address) = true →
      wd.add_wallet w =
        (Except.error (RegistryError.duplicateAddress (formatAddress w.address)), wd)) ∧
    (containsA wd.wallets (formatAddress w.address) = false →
      (wd.add_wallet w).1 = Except.ok () ∧
      lookupA (wd.add_wallet w).2.wallets (formatAddress w.address) = some w ∧
      (wd.add_wallet w).2.current_wallet = formatAddress w.address ∧
      (∀ k, k ≠ formatAddress w.address →
        lookupA (wd.add_wallet w).2.wallets k = lookupA wd.wallets k) ∧
      (wd.add_wallet w).2.contacts = wd.contacts ∧
      (wd.add_wallet w).2.api_key = wd.api_key) := by
  constructor
  · intro hc
    simp [WalletData.add_wallet, hc]
  · intro hc
    have hc' : ¬ containsA wd.wallets (formatAddress w.address) = true := by
      rw [hc]
      exact Bool.false_ne_true
    refine ⟨by simp [WalletData.add_wallet, hc'], ?_, by simp [WalletData.add_wallet, hc'],
      ?_, by simp [WalletData.add_wallet, hc'], by simp [WalletData.add_wallet, hc']⟩
    · simp only [WalletData.add_wallet, hc', if_neg, if_false]
      simpa using lookupA_insertA_self wd.wallets (formatAddress w.address) w
    · intro k hk
      simp only [WalletData.add_wallet, hc', if_neg, if_false]
      simpa using lookupA_insertA_ne wd.wallets (formatAddress w.address) k w hk

/-- Witness for C5: adding `exampleWallet` again to the registry that
already holds it is rejected with the registry unchanged, and adding it to
the empty registry inserts it and selects it. -/
theorem c5_add_wallet_contract_witness :
    exampleRegistry.add_wallet exampleWallet =
      (Except.error (RegistryError.duplicateAddress
        (formatAddress exampleWallet.address)), exampleRegistry) ∧
    (WalletData.new.add_wallet exampleWallet).1 = Except.ok () ∧
    lookupA (WalletData.new.add_wallet exampleWallet).2.wallets
      (formatAddress exampleWallet.address) = some exampleWallet ∧
    (WalletData.new.add_wallet exampleWallet).2.current_wallet
      = formatAddress exampleWallet.address :=
  ⟨(c5_add_wallet_contract exampleRegistry exampleWallet).1 (by decide),
   ((c5_add_wallet_contract WalletData.new exampleWallet).2 (by decide)).1,
   ((c5_add_wallet_contract WalletData.new exampleWallet).2 (by decide)).2.1,
   ((c5_add_wallet_contract WalletData.new exampleWallet).2 (by decide)).2.2.1⟩

/-- C7: Remove of the active entry clears the selection.  For every
registry in which the removed address is present and equals the current
selection, `remove_wallet` succeeds, deletes that entry (leaving every
other entry in place), and resets `current_wallet` to the empty sentinel. -/
theorem c7_remove_active_clears_selection (wd : WalletData) (a : String)
    (hc : containsA wd.wallets a = true) (hcur : wd.current_wallet = a) :
    (wd.remove_wallet a).1 = Except.ok () ∧
    (wd.remove_wallet a).2.current_wallet = "" ∧
    lookupA (wd.remove_wallet a).2.wallets a = none ∧
    (∀ k, k ≠ a → lookupA (wd.remove_wallet a).2.wallets k = lookupA wd.wallets k) := by
  have hc' : ¬ ¬ containsA wd.wallets a = true := fun hx => hx hc
  refine ⟨by simp [WalletData.remove_wallet, hc'], ?_, ?_, ?_⟩
  · simp [WalletData.remove_wallet, hc', hcur]
  · simp only [WalletData.remove_wallet, hc', if_neg, if_false]
    simpa using lookupA_eraseA_self wd.wallets a
  · intro k hk
    simp only [WalletData.remove_wallet, hc', if_neg, if_false]
    simpa using lookupA_eraseA_ne wd.wallets a k hk

/-- Witness for C7: removing the single, currently selected entry of the
example registry succeeds, empties the selection and deletes the entry. -/
theorem c7_remove_active_clears_selection_witness :
    (exampleRegistry.remove_wallet (formatAddress exampleWallet.address)).1
      = Except.ok () ∧
    (exampleRegistry.remove_wallet (formatAddress exampleWallet.address)).2.current_wallet
      = "" ∧
    lookupA (exampleRegistry.remove_wallet
      (formatAddress exampleWallet.address)).2.wallets
      (formatAddress exampleWallet.address) = none :=
  ⟨(c7_remove_active_clears_selection exampleRegistry
      (formatAddress exampleWallet.address) (by decide) (by decide)).1,
   (c7_remove_active_clears_selection exampleRegistry
      (formatAddress exampleWallet.address) (by decide) (by decide)).2.1,
   (c7_remove_active_clears_selection exampleRegistry
      (formatAddress exampleWallet.address) (by decide) (by decide)).2.2.1⟩


/-- C3 counterexample: at the registry level the claim fails.  In the
concrete registry whose single entry is also the current selection,
`WalletData::remove_wallet` on the current address does not fail with the
cannot-delete-active error: it succeeds and mutates the registry. -/
theorem c3_remove_current_counterexample :
    exampleRegistry.current_wallet = formatAddress exampleWallet.address ∧
    (exampleRegistry.remove_wallet (formatAddress exampleWallet.address)).1
      = Except.ok () ∧
    (exampleRegistry.remove_wallet (formatAddress exampleWallet.address)).2
      ≠ exampleRegistry := by
  refine ⟨by decide, rfl, ?_⟩
  intro h
  have := congrArg WalletData.current_wallet h
  revert this
  decide

/-- C3 amended: the active-deletion guard lives in the delete command, not
in `WalletData::remove_wallet`.  For every registry, deleting by name a
wallet whose address equals the current selection fails with the
cannot-delete-active error, and the registry state is unchanged after the
failed call (the command persists nothing on failure). -/
theorem c3_delete_active_guard (wd : WalletData) (name : String) (w : Wallet)
    (hfind : wd.get_wallet_by_name name = some w)
    (hcur : wd.current_wallet = formatAddress w.address) :
    WalletCommand.delete_wallet_step wd name
      = (Except.error RegistryError.cannotDeleteActive, wd) := by
  unfold WalletCommand.delete_wallet_step
  rw [hfind]
  simp [hcur]

/-- Witness for the amended C3 at the example registry, whose wallet named
main is the current selection. -/
theorem c3_delete_active_guard_witness :
    WalletCommand.delete_wallet_step exampleRegistry "main"
      = (Except.error RegistryError.cannotDeleteActive, exampleRegistry) :=
  c3_delete_active_guard exampleRegistry "main" exampleWallet (by decide) (by decide)


/-- C8 counterexample: renaming a wallet to the name it already has.  In
the example registry the wallet named main exists, the new name main is
non-empty, and no other entry uses it (exactly one entry carries the
name); the claim therefore requires success, but the rename command fails
with the duplicate-name error because the check matches any entry,
including the one being renamed. -/
theorem c8_rename_same_name_counterexample :
    exampleRegistry.get_wallet_by_name "main" = some exampleWallet ∧
    ("main" : String) ≠ "" ∧
    (exampleRegistry.wallets.filter (fun kv => kv.2.name = "main")).length = 1 ∧
    WalletCommand.rename_wallet_step exampleRegistry "main" "main"
      = (Except.error (RegistryError.duplicateName "main"), exampleRegistry) :=
  ⟨by decide, by decide, by decide, rfl⟩

/-- C8 amended: rename(old_name, new_name) requires that an entry named
old_name exists, that new_name is non-empty, and that new_name is not
already used by any entry — including the entry being renamed, so renaming
a wallet to its current name fails with the duplicate-name error.  When
the preconditions hold (and the found entry is stored under its own
address key, as every entry added through the registry API is), it updates
only that entry's label in place; otherwise it fails with the not-found,
invalid-name or duplicate-name error respectively, leaving the registry
unchanged. -/
theorem c8_rename_contract (wd : WalletData) (old_name new_name : String) :
    (wd.get_wallet_by_name old_name = none →
      WalletCommand.rename_wallet_step wd old_name new_name =
        (Except.error (RegistryError.walletNotFoundByName old_name), wd)) ∧
    (∀ w, wd.get_wallet_by_name old_name = some w → new_name = "" →
      WalletCommand.rename_wallet_step wd old_name new_name =
        (Except.error RegistryError.invalidName, wd)) ∧
    (∀ w, wd.get_wallet_by_name old_name = some w → new_name ≠ "" →
      (wd.get_wallet_by_name new_name).isSome →
      WalletCommand.rename_wallet_step wd old_name new_name =
        (Except.error (RegistryError.duplicateName new_name), wd)) ∧
    (∀ w, wd.get_wallet_by_name old_name = some w → new_name ≠ "" →
      wd.get_wallet_by_name new_name = none →
      containsA wd.wallets (formatAddress w.address) = true →
      (WalletCommand.rename_wallet_step wd old_name new_name).1 = Except.ok () ∧
      (WalletCommand.rename_wallet_step wd old_name new_name).2.current_wallet
        = wd.current_wallet ∧
      (∀ k, k ≠ formatAddress w.address →
        lookupA (WalletCommand.rename_wallet_step wd old_name new_name).2.wallets k
          = lookupA wd.wallets k) ∧
      lookupA (WalletCommand.rename_wallet_step wd old_name new_name).2.wallets
          (formatAddress w.address)
        = (lookupA wd.wallets (formatAddress w.address)).map
            (fun w0 => { w0 with name := new_name })) := by
  refine ⟨?_, ?_, ?_, ?_⟩
  · intro h
    unfold WalletCommand.rename_wallet_step
    rw [h]
  · intro w hfind hempty
    unfold WalletCommand.rename_wallet_step
    rw [hfind]
    simp [hempty]
  · intro w hfind hne hdup
    unfold WalletCommand.rename_wallet_step
    rw [hfind]
    dsimp only
    rw [if_neg hne, if_pos hdup]
  · intro w hfind hne hfresh hcont
    have hfresh' : ¬ (wd.get_wallet_by_name new_name).isSome = true := by
      rw [hfresh]
      simp
    unfold WalletCommand.rename_wallet_step
    rw [hfind]
    dsimp only
    rw [if_neg hne, if_neg hfresh', if_pos hcont]
    refine ⟨rfl, rfl, ?_, ?_⟩
    · intro k hk
      have := lookupA_map_update wd.wallets (formatAddress w.address)
        (fun w0 => { w0 with name := new_name }) k
      rw [if_neg hk] at this
      exact this
    · have := lookupA_map_update wd.wallets (formatAddress w.address)
        (fun w0 => { w0 with name := new_name }) (formatAddress w.address)
      rw [if_pos rfl] at this
      exact this

/-- Witness for the amended C8: a rename to a missing name fails, and the
successful rename of main to other relabels exactly the renamed entry. -/
theorem c8_rename_contract_witness :
    WalletCommand.rename_wallet_step exampleRegistry "zzz" "other"
      = (Except.error (RegistryError.walletNotFoundByName "zzz"), exampleRegistry) ∧
    (WalletCommand.rename_wallet_step exampleRegistry "main" "other").1
      = Except.ok () ∧
    lookupA (WalletCommand.rename_wallet_step exampleRegistry "main" "other").2.wallets
        (formatAddress exampleWallet.address)
      = (lookupA exampleRegistry.wallets (formatAddress exampleWallet.address)).map
          (fun w0 => { w0 with name := "other" }) :=
  ⟨(c8_rename_contract exampleRegistry "zzz" "other").1 (by decide),
   ((c8_rename_contract exampleRegistry "main" "other").2.2.2 exampleWallet
     (by decide) (by decide) (by decide) (by decide)).1,
   ((c8_rename_contract exampleRegistry "main" "other").2.2.2 exampleWallet
     (by decide) (by decide) (by decide) (by decide)).2.2.2⟩


/-- Every single registry operation preserves the selection invariant,
whether it succeeds or fails. -/
theorem applyOp_preserves_selectionInvariant (wd : WalletData) (op : RegistryOp)
    (h : SelectionInvariant wd) : SelectionInvariant (applyOp wd op) := by
  cases op with
  | add w =>
    show SelectionInvariant (wd.add_wallet w).2
    unfold WalletData.add_wallet
    by_cases hc : containsA wd.wallets (formatAddress w.address) = true
    · simpa [hc] using h
    · right
      simp only [hc, if_false]
      exact containsA_insertA_self wd.wallets (formatAddress w.address) w
  | switch address =>
    show SelectionInvariant (wd.switch_wallet address).2
    unfold WalletData.switch_wallet
    by_cases hc : containsA wd.wallets address = true
    · have hc' : ¬ ¬ containsA wd.wallets address = true := fun hx => hx hc
      right
      simpa [hc'] using hc
    · simpa [hc] using h
  | remove address =>
    show SelectionInvariant (wd.remove_wallet address).2
    unfold WalletData.remove_wallet
    by_cases hc : containsA wd.wallets address = true
    · have hc' : ¬ ¬ containsA wd.wallets address = true := fun hx => hx hc
      simp only [hc', if_neg, if_false]
      by_cases hcur : wd.current_wallet = address
      · left
        simp [hcur]
      · rcases h with h | h
        · left
          simpa [hcur] using h
        · right
          simp only [hcur, if_false]
          rw [containsA_eraseA_ne wd.wallets address wd.current_wallet hcur]
          exact h
    · simpa [hc] using h
  | rename w new_name =>
    show SelectionInvariant (wd.rename_wallet w new_name).2
    unfold WalletData.rename_wallet
    by_cases hc : containsA wd.wallets (formatAddress w.address) = true
    · have hc' : ¬ ¬ containsA wd.wallets (formatAddress w.address) = true :=
        fun hx => hx hc
      simp only [hc', if_neg, if_false]
      rcases h with h | h
      · left
        exact h
      · right
        rw [containsA_map_update wd.wallets (formatAddress w.address)
          (fun w0 => { w0 with name := new_name }) wd.current_wallet]
        exact h
    · simpa [hc] using h

/-- Sequences of operations preserve the selection invariant. -/
theorem applyOps_preserves_selectionInvariant (ops : List RegistryOp)
    (wd : WalletData) (h : SelectionInvariant wd) :
    SelectionInvariant (applyOps wd ops) := by
  induction ops generalizing wd with
  | nil => exact h
  | cons op rest ih =>
    exact ih (applyOp wd op) (applyOp_preserves_selectionInvariant wd op h)

/-- C6: Registry selection invariant.  Starting from the empty registry,
after every sequence of add, switch, remove and rename operations (each
either succeeding or failing), `current_wallet` is either the empty
sentinel or a key present in the entries map — never a dangling
reference. -/
theorem c6_selection_invariant (ops : List RegistryOp) :
    SelectionInvariant (applyOps WalletData.new ops) :=
  applyOps_preserves_selectionInvariant ops WalletData.new (Or.inl rfl)


/-- Directories already present, or listed for creation, are present after
the directory-creation fold of `create_dir_all`. -/
theorem containsA_foldl_dirs (qs : List FsPath) (ds : List (FsPath × Nat))
    (mode : Nat) (q : FsPath) (h : q ∈ qs ∨ containsA ds q = true) :
    containsA (qs.foldl
      (fun ds r => if containsA ds r then ds else insertA ds r mode) ds) q = true := by
  induction qs generalizing ds with
  | nil =>
    rcases h with h | h
    · exact absurd h (List.not_mem_nil q)
    · exact h
  | cons r rs ih =>
    simp only [List.foldl_cons]
    apply ih
    rcases h with h | h
    · rcases List.mem_cons.mp h with h | h
      · right
        subst h
        by_cases hc : containsA ds q = true
        · rw [if_pos hc]
          exact hc
        · rw [if_neg hc]
          exact containsA_insertA_self ds q mode
      · left
        exact h
    · right
      by_cases hc : containsA ds r = true
      · rw [if_pos hc]
        exact h
      · rw [if_neg hc]
        exact containsA_insertA_mono ds r q mode h

/-- A nonempty path is among its own initial segments. -/
theorem mem_initialSegs_self (p : FsPath) (h : p ≠ []) : p ∈ initialSegs p := by
  unfold initialSegs
  have hl : 0 < p.length := List.length_pos.mpr h
  refine List.mem_map.mpr ⟨p.length - 1, List.mem_range.mpr (by omega), ?_⟩
  rw [Nat.sub_add_cancel hl, List.take_length]

/-- After `create_dir_all`, every requested segment (and every previously
existing directory) is present. -/
theorem containsA_create_dir_all (fs : FileSystem) (mode : Nat) (p q : FsPath)
    (h : q ∈ initialSegs p ∨ containsA fs.dirs q = true) :
    containsA (create_dir_all fs mode p).dirs q = true := by
  unfold create_dir_all
  exact containsA_foldl_dirs (initialSegs p) fs.dirs mode q h

/-- After `write_secure`, the file holds the written contents with mode
0o600. -/
theorem write_secure_file (fs : FileSystem) (dmode fmode : Nat) (p : FsPath)
    (contents : String) :
    lookupA (write_secure fs dmode fmode p contents).files p
      = some (contents, 384) := by
  unfold write_secure setFileMode fsWrite
  cases hl : lookupA (create_dir_all fs dmode p.dropLast).files p with
  | none => simp [hl, lookupA_insertA_self]
  | some cm => simp [hl, lookupA_insertA_self]

/-- `write_secure` changes directories exactly as `create_dir_all` on the
parent does. -/
theorem write_secure_dirs (fs : FileSystem) (dmode fmode : Nat) (p : FsPath)
    (contents : String) :
    (write_secure fs dmode fmode p contents).dirs
      = (create_dir_all fs dmode p.dropLast).dirs := by
  unfold write_secure setFileMode fsWrite
  cases hl : lookupA (create_dir_all fs dmode p.dropLast).files p with
  | none => simp [hl, lookupA_insertA_self]
  | some cm => simp [hl, lookupA_insertA_self]

/-- After `create_dir_secure`, the directory itself has mode 0o700. -/
theorem create_dir_secure_mode (fs : FileSystem) (mode : Nat) (p : FsPath)
    (h : p ≠ []) :
    lookupA (create_dir_secure fs mode p).dirs p = some 448 := by
  unfold create_dir_secure setDirMode
  have hc : containsA (create_dir_all fs mode p).dirs p = true :=
    containsA_create_dir_all fs mode p p (Or.inl (mem_initialSegs_self p h))
  have hs : (lookupA (create_dir_all fs mode p).dirs p).isSome :=
    (containsA_iff_lookupA _ p).mp hc
  cases hl : lookupA (create_dir_all fs mode p).dirs p with
  | none => rw [hl] at hs; cases hs
  | some m => simp [hl, lookupA_insertA_self]

/-- C9 counterexample: `write_secure` does not give a missing containing
directory owner-only 0o700 access.  Writing into an empty filesystem with
the usual process default directory mode 0o755 = 493 leaves the new
containing directory at 493, not 448 = 0o700 (only the separate
`create_dir_secure` sets 0o700, and `write_secure` never calls it). -/
theorem c9_write_secure_dir_mode_counterexample :
    lookupA (write_secure FileSystem.empty 493 438
        ["home", "user", "data", "registry.json"] "{}").dirs
      ["home", "user", "data"] = some 493 ∧ (493 : Nat) ≠ 448 :=
  ⟨rfl, by decide⟩

/-- C9 amended: `write_secure(path, content)` first ensures the containing
directory exists (newly created directories receive the process default
mode, not owner-only 0o700), writes the full content as one file, and
after writing restricts the file's permissions to owner-read/write 0o600;
directory permissions are restricted to owner-only 0o700 by the separate
`create_dir_secure`, which the registry path resolution invokes. -/
theorem c9_write_secure_contract (fs : FileSystem) (dmode fmode : Nat)
    (p : FsPath) (contents : String) :
    lookupA (write_secure fs dmode fmode p contents).files p
      = some (contents, 384) ∧
    (p.dropLast ≠ [] →
      containsA (write_secure fs dmode fmode p contents).dirs p.dropLast = true) ∧
    (∀ q, q ≠ [] → lookupA (create_dir_secure fs dmode q).dirs q = some 448) := by
  refine ⟨write_secure_file fs dmode fmode p contents, ?_,
    fun q hq => create_dir_secure_mode fs dmode q hq⟩
  intro hne
  rw [write_secure_dirs]
  exact containsA_create_dir_all fs dmode p.dropLast p.dropLast
    (Or.inl (mem_initialSegs_self _ hne))

/-- Witness for the amended C9 at a concrete filesystem, path and
contents. -/
theorem c9_write_secure_contract_witness :
    lookupA (write_secure FileSystem.empty 493 438 ["a", "b", "f.json"] "x").files
      ["a", "b", "f.json"] = some ("x", 384) ∧
    containsA (write_secure FileSystem.empty 493 438 ["a", "b", "f.json"] "x").dirs
      ["a", "b"] = true ∧
    lookupA (create_dir_secure FileSystem.empty 493 ["a", "b"]).dirs ["a", "b"]
      = some 448 :=
  ⟨(c9_write_secure_contract FileSystem.empty 493 438 ["a", "b", "f.json"] "x").1,
   (c9_write_secure_contract FileSystem.empty 493 438 ["a", "b", "f.json"] "x").2.1
     (by decide),
   (c9_write_secure_contract FileSystem.empty 493 438 ["a", "b", "f.json"] "x").2.2
     ["a", "b"] (by decide)⟩


end RskCli
